import Mathlib

/-!
Shallow embedding of the microRacer simulation core (src/game.js) and proofs
about its specification claims.

Conventions:
* JavaScript numbers are modelled as real numbers (`ℝ`); the numeric margins
  of every claim settled here are far above double-precision rounding error.
* JavaScript array reads that may hit a missing index (`undefined`, then a
  `TypeError` on member access) are modelled with `Option`.
* `Date.now()` is threaded through as an explicit `now : ℝ` argument.
* Booleans of the JS objects are `Bool`; the lap counter is `ℤ`.
-/

namespace MicroRacer

open Real

/-- A 2D point, as used for track control points and positions. -/
structure Point where
  x : ℝ
  y : ℝ

/-- One ghost-lap sample: `{ t, x, y, angle }` as pushed by
`recordLapSample` and `checkLapCompletion`. -/
structure Sample where
  t : ℝ
  x : ℝ
  y : ℝ
  angle : ℝ

/-- The `Car` class state (src/game.js, `class Car`): numeric and boolean
fields of the constructor.  Rendering-only fields (color, style, playerIndex,
rpm bookkeeping) are omitted; they are read by no simulation function. -/
structure Car where
  x : ℝ
  y : ℝ
  width : ℝ
  height : ℝ
  speed : ℝ
  maxSpeedAsphalt : ℝ
  tiresOnTrackRatio : ℝ
  acceleration : ℝ
  deceleration : ℝ
  onGrass : Bool
  turnSpeed : ℝ
  maxTurnSpeed : ℝ
  steerInput : ℝ
  angle : ℝ
  lap : ℤ
  crossedCheckpoint : Bool
  crossedFinishLine : Bool
  lapStartTime : ℝ
  currentLapTime : ℝ
  bestLapTime : Option ℝ
  slipstreamEndTime : ℝ

/-- The `Car` constructor with its default field values
(`speedScale = 0.5`, so `maxSpeedAsphalt = 150`, `acceleration = 0.3`). -/
def mkCar (x y startAngle : ℝ) : Car where
  x := x
  y := y
  width := 23
  height := 43
  speed := 0
  maxSpeedAsphalt := 300 * 0.5
  tiresOnTrackRatio := 1.0
  acceleration := 0.6 * 0.5
  deceleration := 0.3 * 0.5
  onGrass := false
  turnSpeed := 0
  maxTurnSpeed := 4
  steerInput := 0
  angle := startAngle
  lap := 0
  crossedCheckpoint := false
  crossedFinishLine := false
  lapStartTime := 0
  currentLapTime := 0
  bestLapTime := none
  slipstreamEndTime := 0

/-- `Car.getSpeedRatio()`: `min(|speed| / maxSpeedAsphalt, 1)`. -/
noncomputable def getSpeedRatio (c : Car) : ℝ :=
  min (|c.speed| / c.maxSpeedAsphalt) 1

/-- `Car.getCollisionRadius()`: `max(width, height) * 0.45`. -/
noncomputable def getCollisionRadius (c : Car) : ℝ :=
  max c.width c.height * 0.45

/-- `Car.getCurrentMaxSpeed()`: the asphalt maximum reduced by 4% of the
off-track tire fraction. -/
def getCurrentMaxSpeed (c : Car) : ℝ :=
  c.maxSpeedAsphalt * (1.0 - (1.0 - c.tiresOnTrackRatio) * 0.04)

/-- `Car.update()`: position integration, friction blend, steering easing,
heading integration and lap-clock refresh, in source order.  Position is
integrated with the pre-friction speed; `getSpeedRatio` afterwards reads the
post-friction speed, exactly as the mutation order in the source does. -/
noncomputable def carUpdate (c : Car) (now : ℝ) : Car :=
  let x' := c.x + Real.cos (c.angle - Real.pi / 2) * c.speed
  let y' := c.y + Real.sin (c.angle - Real.pi / 2) * c.speed
  let frictionBlend := 0.95 * c.tiresOnTrackRatio + 0.82 * (1.0 - c.tiresOnTrackRatio)
  let speed' := c.speed * frictionBlend
  let speedRatio := min (|speed'| / c.maxSpeedAsphalt) 1
  let steerFactor := max 0.6 (1.2 - speedRatio * 0.6)
  let tractionFactor := 0.6 + 0.4 * c.tiresOnTrackRatio
  let targetTurn := c.steerInput * c.maxTurnSpeed * steerFactor * tractionFactor
  let turnSpeed' := c.turnSpeed + (targetTurn - c.turnSpeed) * 0.25
  let direction : ℝ := if speed' < -0.5 then -1 else 1
  let turnScale := 0.35 + speedRatio * 0.75
  let angle' := c.angle + turnSpeed' * 0.02 * direction * turnScale
  { c with x := x', y := y', speed := speed', turnSpeed := turnSpeed',
           angle := angle', currentLapTime := now - c.lapStartTime }

/-- The keyboard branch of `Game.handleInput` for one car: steer from the
left/right keys, then throttle clamped to `getCurrentMaxSpeed`, then
brake/reverse clamped to half of it. -/
noncomputable def handleInputKeyboard (c : Car) (up down left right : Bool) : Car :=
  let c1 := { c with steerInput := (if right then (1 : ℝ) else 0) - (if left then 1 else 0) }
  let c2 := if up then
      { c1 with speed := min (c1.speed + c1.acceleration) (getCurrentMaxSpeed c1) }
    else c1
  if down then
    { c2 with speed := max (c2.speed - c2.acceleration) (-(getCurrentMaxSpeed c2) * 0.5) }
  else c2

/-- One full-throttle tick of the per-frame loop for one car:
`handleInput` (which still sees the previous tick's contact ratio), then the
contact-ratio refresh to `r`, then `Car.update`. -/
noncomputable def fullThrottleTick (c : Car) (r now : ℝ) : Car :=
  carUpdate { handleInputKeyboard c true false false false with tiresOnTrackRatio := r } now

/-- Iterated full-throttle ticks on asphalt (`tiresOnTrackRatio = 1`)
starting from the freshly constructed car. -/
noncomputable def fullThrottleIter : ℕ → Car
  | 0 => mkCar 0 0 0
  | n + 1 => fullThrottleTick (fullThrottleIter n) 1 0

/-- The speed sequence of `fullThrottleIter`. -/
noncomputable def fullThrottleSpeedSeq (n : ℕ) : ℝ :=
  (fullThrottleIter n).speed

/-- One no-input tick for one car: `handleInput` with no keys pressed (which
only zeroes the steer input), the contact-ratio refresh, then `Car.update`. -/
noncomputable def noInputTick (c : Car) (r now : ℝ) : Car :=
  carUpdate { handleInputKeyboard c false false false false with tiresOnTrackRatio := r } now

/-- Repeated no-input ticks over a list of (contact ratio, clock) pairs. -/
noncomputable def noInputRun (c : Car) (l : List (ℝ × ℝ)) : Car :=
  l.foldl (fun cc p => noInputTick cc p.1 p.2) c

/-- Repeated full-throttle ticks over a list of (contact ratio, clock) pairs. -/
noncomputable def fullThrottleRun (c : Car) (l : List (ℝ × ℝ)) : Car :=
  l.foldl (fun cc p => fullThrottleTick cc p.1 p.2) c

/-! ### Collision resolution (`Game.resolveCarCollisions`) -/

/-- One iteration of the pairwise loop body of `Game.resolveCarCollisions`
on cars `a` and `b` (in that order): skip at zero or non-overlapping
distance, positional separation, the separating-pair early-out, then the
restitution impulse, damping and speed clamping. -/
noncomputable def resolvePair (a b : Car) : Car × Car :=
  let dx := b.x - a.x
  let dy := b.y - a.y
  let dist := Real.sqrt (dx ^ 2 + dy ^ 2)
  let minDist := getCollisionRadius a + getCollisionRadius b
  if dist = 0 ∨ dist ≥ minDist then (a, b)
  else
    let nx := dx / dist
    let ny := dy / dist
    let overlap := minDist - dist
    let a1 := { a with x := a.x - nx * overlap * 0.5, y := a.y - ny * overlap * 0.5 }
    let b1 := { b with x := b.x + nx * overlap * 0.5, y := b.y + ny * overlap * 0.5 }
    let forwardAX := Real.cos (a.angle - Real.pi / 2)
    let forwardAY := Real.sin (a.angle - Real.pi / 2)
    let forwardBX := Real.cos (b.angle - Real.pi / 2)
    let forwardBY := Real.sin (b.angle - Real.pi / 2)
    let velAX := forwardAX * a.speed
    let velAY := forwardAY * a.speed
    let velBX := forwardBX * b.speed
    let velBY := forwardBY * b.speed
    let velAlongNormal := (velBX - velAX) * nx + (velBY - velAY) * ny
    if velAlongNormal > 0 then (a1, b1)
    else
      let impulse := (-(1 + 0.5) * velAlongNormal) / 2
      let newVelAX := velAX - impulse * nx
      let newVelAY := velAY - impulse * ny
      let newVelBX := velBX + impulse * nx
      let newVelBY := velBY + impulse * ny
      let speedA := (newVelAX * forwardAX + newVelAY * forwardAY) * 0.9
      let speedB := (newVelBX * forwardBX + newVelBY * forwardBY) * 0.9
      let a2 := { a1 with speed := (max
        (min speedA (getCurrentMaxSpeed a1)) (-(getCurrentMaxSpeed a1) * 0.5)) }
      let b2 := { b1 with speed := (max
        (min speedB (getCurrentMaxSpeed b1)) (-(getCurrentMaxSpeed b1) * 0.5)) }
      (a2, b2)

/-- The ordered list of index pairs `(i, j)` with `i < j < n`, as visited by
the double loop of `resolveCarCollisions`. -/
def pairIndices (n : ℕ) : List (ℕ × ℕ) :=
  (List.range n).flatMap fun i =>
    ((List.range n).filter fun j => i < j).map fun j => (i, j)

/-- One step of the double loop: resolve the pair at indices `(i, j)` and
store both updated cars back. -/
noncomputable def resolveStep (cars : List Car) (ij : ℕ × ℕ) : List Car :=
  match cars.get? ij.1, cars.get? ij.2 with
  | some a, some b =>
    let p := resolvePair a b
    (cars.set ij.1 p.1).set ij.2 p.2
  | _, _ => cars

/-- `Game.resolveCarCollisions()`: the sequential double loop over all
ordered pairs of active cars. -/
noncomputable def resolveCarCollisions (cars : List Car) : List Car :=
  (pairIndices cars.length).foldl resolveStep cars

/-- All `Car` fields other than `x`, `y` and `speed`: heading, turn rate,
lap/checkpoint state, lap timing, and every tunable. -/
def carFrame (c : Car) : ℝ × ℝ × ℝ × ℝ × ℝ × ℝ × Bool × ℝ × ℝ × ℝ × ℝ × ℤ ×
    Bool × Bool × ℝ × ℝ × Option ℝ × ℝ :=
  (c.angle, c.width, c.height, c.maxSpeedAsphalt, c.tiresOnTrackRatio, c.acceleration,
   c.onGrass, c.deceleration, c.turnSpeed, c.maxTurnSpeed, c.steerInput,
   c.lap, c.crossedCheckpoint, c.crossedFinishLine, c.lapStartTime,
   c.currentLapTime, c.bestLapTime, c.slipstreamEndTime)

/-! Named forms of the local variables of the collision loop body, for
stating properties of `resolvePair`. -/

/-- `Math.hypot(dx, dy)`: distance between the two car centers. -/
noncomputable def pairDist (a b : Car) : ℝ :=
  Real.sqrt ((b.x - a.x) ^ 2 + (b.y - a.y) ^ 2)

/-- Sum of the two collision radii. -/
noncomputable def pairMinDist (a b : Car) : ℝ :=
  getCollisionRadius a + getCollisionRadius b

/-- x component of a car's forward unit vector (`cos(angle − π/2)`). -/
noncomputable def carForwardX (c : Car) : ℝ := Real.cos (c.angle - Real.pi / 2)

/-- y component of a car's forward unit vector (`sin(angle − π/2)`). -/
noncomputable def carForwardY (c : Car) : ℝ := Real.sin (c.angle - Real.pi / 2)

/-- x component of the contact normal. -/
noncomputable def pairNormalX (a b : Car) : ℝ := (b.x - a.x) / pairDist a b

/-- y component of the contact normal. -/
noncomputable def pairNormalY (a b : Car) : ℝ := (b.y - a.y) / pairDist a b

/-- Relative velocity projected on the contact normal. -/
noncomputable def pairVelAlongNormal (a b : Car) : ℝ :=
  (carForwardX b * b.speed - carForwardX a * a.speed) * pairNormalX a b
  + (carForwardY b * b.speed - carForwardY a * a.speed) * pairNormalY a b

/-- The shared restitution impulse. -/
noncomputable def pairImpulse (a b : Car) : ℝ :=
  (-(1 + 0.5) * pairVelAlongNormal a b) / 2

/-- Car `a`'s damped post-impulse forward speed, before clamping. -/
noncomputable def impulseSpeedA (a b : Car) : ℝ :=
  ((carForwardX a * a.speed - pairImpulse a b * pairNormalX a b) * carForwardX a
   + (carForwardY a * a.speed - pairImpulse a b * pairNormalY a b) * carForwardY a) * 0.9

/-- Car `b`'s damped post-impulse forward speed, before clamping. -/
noncomputable def impulseSpeedB (a b : Car) : ℝ :=
  ((carForwardX b * b.speed + pairImpulse a b * pairNormalX a b) * carForwardX b
   + (carForwardY b * b.speed + pairImpulse a b * pairNormalY a b) * carForwardY b) * 0.9

/-- First counterexample pair: car at the origin heading 5π/6 at speed 1. -/
noncomputable def colA : Car := { mkCar 0 0 (5 * Real.pi / 6) with speed := 1 }

/-- First counterexample pair: stationary car at (10, 0) heading 3π/2. -/
noncomputable def colB : Car := mkCar 10 0 (3 * Real.pi / 2)

/-- Second counterexample pair: car at the origin heading −π/2 with an
(out-of-range, slipstream-boosted) speed of 200. -/
noncomputable def sepA : Car := { mkCar 0 0 (-Real.pi / 2) with speed := 200 }

/-- Second counterexample pair: stationary car at (10, 0) heading 0. -/
noncomputable def sepB : Car := mkCar 10 0 0

/-! ### Track geometry (`class Track`) -/

/-- JavaScript's `Math.atan2(y, x)`. -/
noncomputable def atan2 (y x : ℝ) : ℝ :=
  if 0 < x then Real.arctan (y / x)
  else if x < 0 then
    (if 0 ≤ y then Real.arctan (y / x) + Real.pi else Real.arctan (y / x) - Real.pi)
  else
    (if 0 < y then Real.pi / 2 else if y < 0 then -(Real.pi / 2) else 0)

/-- A JavaScript array read `points[i]`: `undefined` (here `none`) for an
index that is negative or past the end. -/
def nthP (ps : List Point) (i : ℤ) : Option Point :=
  if 0 ≤ i then ps.get? i.toNat else none

/-- Quadratic Bézier evaluation `(1−u)²S + 2(1−u)uC + u²E`. -/
noncomputable def bez2 (s c e : Point) (u : ℝ) : Point :=
  ⟨(1 - u) * (1 - u) * s.x + 2 * (1 - u) * u * c.x + u * u * e.x,
   (1 - u) * (1 - u) * s.y + 2 * (1 - u) * u * c.y + u * u * e.y⟩

/-- Midpoint of two points. -/
noncomputable def midP (p q : Point) : Point :=
  ⟨(p.x + q.x) / 2, (p.y + q.y) / 2⟩

/-- `Math.floor(t * totalSegments)` of `Track.getTrackPoint`. -/
noncomputable def segIndexOf (n : ℤ) (t : ℝ) : ℤ := ⌊t * (n : ℝ)⌋

/-- `segmentIndex % totalSegments` — JavaScript's `%` truncates toward zero,
i.e. `Int.tmod`. -/
noncomputable def trackIndexOf (n : ℤ) (t : ℝ) : ℤ :=
  Int.tmod (segIndexOf n t) n

/-- The local Bézier parameter `u = t * totalSegments - segmentIndex`. -/
noncomputable def trackUOf (n : ℤ) (t : ℝ) : ℝ :=
  t * (n : ℝ) - ((segIndexOf n t : ℤ) : ℝ)

/-- `Track.getTrackPoint(t)`: map `t` to a segment, pick the Bézier control
points (first and last segment close the loop through `points[0]`), and
evaluate the quadratic Bézier.  Array reads are `Option`-guarded. -/
noncomputable def getTrackPoint (points : List Point) (t : ℝ) : Option Point :=
  let totalSegments : ℤ := (points.length : ℤ) - 1
  let index : ℤ := trackIndexOf totalSegments t
  let u : ℝ := trackUOf totalSegments t
  let i : ℤ := index + 1
  (nthP points i).bind fun control =>
    if index = 0 then
      (nthP points 0).bind fun start =>
      (nthP points 1).bind fun p1 =>
      (nthP points 2).bind fun p2 =>
        some (bez2 start control (midP p1 p2) u)
    else if index = totalSegments - 1 then
      (nthP points (i - 1)).bind fun pprev =>
      (nthP points 0).bind fun p0 =>
        some (bez2 (midP pprev control) control p0 u)
    else
      (nthP points (i - 1)).bind fun pprev =>
      (nthP points (i + 1)).bind fun pnext =>
        some (bez2 (midP pprev control) control (midP control pnext) u)

/-- `Track.getTrackDirection(t)`: the analytic tangent angle
`atan2(P'(u).y, P'(u).x)` of the same Bézier segment. -/
noncomputable def getTrackDirection (points : List Point) (t : ℝ) : Option ℝ :=
  let totalSegments : ℤ := (points.length : ℤ) - 1
  let index : ℤ := trackIndexOf totalSegments t
  let u : ℝ := trackUOf totalSegments t
  let i : ℤ := index + 1
  (nthP points i).bind fun control =>
    if index = 0 then
      (nthP points 0).bind fun start =>
      (nthP points 1).bind fun p1 =>
      (nthP points 2).bind fun p2 =>
        let e := midP p1 p2
        some (atan2 (2 * (1 - u) * (control.y - start.y) + 2 * u * (e.y - control.y))
                    (2 * (1 - u) * (control.x - start.x) + 2 * u * (e.x - control.x)))
    else if index = totalSegments - 1 then
      (nthP points (i - 1)).bind fun pprev =>
      (nthP points 0).bind fun p0 =>
        let s := midP pprev control
        some (atan2 (2 * (1 - u) * (control.y - s.y) + 2 * u * (p0.y - control.y))
                    (2 * (1 - u) * (control.x - s.x) + 2 * u * (p0.x - control.x)))
    else
      (nthP points (i - 1)).bind fun pprev =>
      (nthP points (i + 1)).bind fun pnext =>
        let s := midP pprev control
        let e := midP control pnext
        some (atan2 (2 * (1 - u) * (control.y - s.y) + 2 * u * (e.y - control.y))
                    (2 * (1 - u) * (control.x - s.x) + 2 * u * (e.x - control.x)))

/-- `seededRandom(i)` of `Track.generateTrack`: the fractional part of
`sin(seed + i*9999) * 10000`. -/
noncomputable def seededRandom (seed : ℝ) (i : ℕ) : ℝ :=
  let x := Real.sin (seed + (i : ℝ) * 9999) * 10000
  x - ⌊x⌋

/-- The 28 raw control points before the feature offsets: indices ≤ 2 and
≥ 26 keep the fixed straight-chute radius variation of 300. -/
noncomputable def basePoints (trackIndex : ℕ) : List Point :=
  (List.range 28).map fun (i : ℕ) =>
    let angle : ℝ := (i : ℝ) * (2 * Real.pi / 28)
    let radiusVariation : ℝ :=
      if i ≤ 2 ∨ 26 ≤ i then 300
      else 200 + Real.sin (angle * 2) * 200 + Real.sin (angle * 3) * 100
        + seededRandom (42 + (trackIndex : ℝ) * 1337) i * 150
    let radius := 800 + radiusVariation
    ⟨Real.cos angle * radius, Real.sin angle * radius⟩

/-- `applyLateralOffset(index, offset)`: skip protected indices, otherwise
displace `points[index]` along the normal of the chord between its cyclic
neighbours.  (For the generated 28-point array all reads are in range; the
fall-through arm models the otherwise-throwing JS read.) -/
noncomputable def applyLateralOffset (pts : List Point) (index : ℕ) (offset : ℝ) :
    List Point :=
  if index ≤ 2 ∨ 26 ≤ index then pts
  else
    match pts.get? ((index - 1 + 28) % 28), pts.get? ((index + 1) % 28), pts.get? index with
    | some prev, some next, some p =>
      let dir := atan2 (next.y - prev.y) (next.x - prev.x)
      pts.set index ⟨p.x + (-Real.sin dir) * offset, p.y + Real.cos dir * offset⟩
    | _, _, _ => pts

/-- The feature table: start index and lateral-offset run per feature. -/
def featureSpec (feature : ℕ) : ℕ × List ℝ :=
  match feature with
  | 0 => (6, [180, -180, 140, -140])
  | 1 => (7, [-260, -340, -260])
  | 2 => (8, [120, -80])
  | 3 => (9, [140, 100, -120, -160])
  | 4 => (13, [120, 180, 220, 180, 120])
  | 5 => (7, [140, -140, 140, -140, 120, -120])
  | 6 => (12, [-220, -300, -220, 220, 300, 220])
  | 7 => (15, [120, 160, 200, 220, 200, 160, 120])
  | 8 => (10, [200, -220, 200])
  | 9 => (14, [120, 180, 240])
  | _ => (0, [])

/-- `applyFeature()`: apply the feature's offsets in order, starting at its
start index. -/
noncomputable def applyFeature (trackIndex : ℕ) (pts : List Point) : List Point :=
  let spec := featureSpec (trackIndex % 10)
  spec.2.enum.foldl (fun ps io => applyLateralOffset ps (spec.1 + io.1) io.2) pts

/-- `Track.generateTrack()`: base points, feature offsets, then close the
loop by pushing a copy of the first point. -/
noncomputable def generateTrack (trackIndex : ℕ) : List Point :=
  let pts := applyFeature trackIndex (basePoints trackIndex)
  match pts.get? 0 with
  | some p0 => pts ++ [⟨p0.x, p0.y⟩]
  | none => pts

/-! ### Ghost angle interpolation (`Game.interpolateAngle`) -/

/-- JavaScript number truncation (rounding toward zero), as used by the JS
`%` operator. -/
noncomputable def jsTrunc (x : ℝ) : ℤ :=
  if 0 ≤ x then ⌊x⌋ else ⌈x⌉

/-- The JavaScript remainder `x % y`: `x - y * trunc(x / y)` (sign follows
the dividend). -/
noncomputable def jsRem (x y : ℝ) : ℝ :=
  x - y * (jsTrunc (x / y) : ℝ)

/-- The delta applied by `interpolateAngle`:
`((b - a + Math.PI * 3) % twoPi) - Math.PI`. -/
noncomputable def interpolateDelta (a b : ℝ) : ℝ :=
  jsRem (b - a + Real.pi * 3) (Real.pi * 2) - Real.pi

/-- `Game.interpolateAngle(a, b, t)`. -/
noncomputable def interpolateAngle (a b t : ℝ) : ℝ :=
  a + interpolateDelta a b * t

/-! ### Lap timing (`Game.checkCheckpoint` / `recordLapSample` /
`checkLapCompletion`), modelled for one player.  The per-player arrays
`lapSamples[index]` / `lastSampleTimes[index]` become single fields. -/

/-- The per-player slice of the `Game` state read and written by the lap
logic.  `startPoint` / `checkpointPoint` stand for `track.getTrackPoint(0)`
and `track.getTrackPoint(0.5)`, fixed after construction; `winner` models
`this.winner` being set (the stored car reference is irrelevant here). -/
structure LapGame where
  car : Car
  lapSamples : List Sample
  lastSampleTime : ℝ
  bestLap : Option (ℝ × List Sample)
  ghostStartTime : ℝ
  ghostCursor : ℕ
  ghostLastTime : ℝ
  winner : Bool
  lapsToWin : ℤ
  startPoint : Point
  checkpointPoint : Point

/-- Distance from the car to the finish line (`track.getTrackPoint(0)`). -/
noncomputable def lapDistance (g : LapGame) : ℝ :=
  Real.sqrt ((g.car.x - g.startPoint.x) ^ 2 + (g.car.y - g.startPoint.y) ^ 2)

/-- `Game.checkCheckpoint(car)`: arm the checkpoint flag within 100 units of
the `t = 0.5` track point. -/
noncomputable def checkCheckpoint (g : LapGame) : LapGame :=
  let distance := Real.sqrt ((g.car.x - g.checkpointPoint.x) ^ 2
    + (g.car.y - g.checkpointPoint.y) ^ 2)
  if distance < 100 ∧ g.car.crossedCheckpoint = false then
    { g with car := { g.car with crossedCheckpoint := true } }
  else g

/-- `Game.recordLapSample(car, index)`: skip samples less than 30 ms after
the previous one, else append and remember the time. -/
noncomputable def recordLapSample (g : LapGame) : LapGame :=
  let sampleTime := g.car.currentLapTime
  if sampleTime - g.lastSampleTime < 30 then g
  else
    { g with lastSampleTime := sampleTime,
             lapSamples := g.lapSamples
               ++ [⟨sampleTime, g.car.x, g.car.y, g.car.angle⟩] }

open scoped Classical in
/-- `Game.checkLapCompletion(car, index)`: the finish-line state machine —
tolerance radius 100, minimum lap duration 5000 ms, final sample push, best
lap update (`!x` in JS is also true for `0`), flag/clock resets, re-arm
beyond distance 200, and the winner check. -/
noncomputable def checkLapCompletion (g : LapGame) (now : ℝ) : LapGame :=
  let distance := lapDistance g
  if distance < 100 then
    if g.car.crossedFinishLine = false ∧ g.car.crossedCheckpoint = true then
      if g.car.currentLapTime > 5000 then
        let lapTime := g.car.currentLapTime
        let samples1 := g.lapSamples ++ [⟨lapTime, g.car.x, g.car.y, g.car.angle⟩]
        let newBestLap :=
          if (match g.bestLap with | none => True | some bl => lapTime < bl.1)
          then some (lapTime, samples1) else g.bestLap
        let newCarBest :=
          if (match g.car.bestLapTime with | none => True | some bt => bt = 0 ∨ lapTime < bt)
          then some lapTime else g.car.bestLapTime
        let car1 : Car := { g.car with
          crossedFinishLine := true, lap := g.car.lap + 1,
          bestLapTime := newCarBest, lapStartTime := now,
          crossedCheckpoint := false }
        let g1 : LapGame := { g with
          car := car1, bestLap := newBestLap, lapSamples := [],
          lastSampleTime := 0, ghostStartTime := now, ghostCursor := 0,
          ghostLastTime := 0 }
        if car1.lap ≥ g1.lapsToWin ∧ g1.winner = false then { g1 with winner := true }
        else g1
      else { g with car := { g.car with crossedFinishLine := true } }
    else g
  else if distance > 200 then
    { g with car := { g.car with crossedFinishLine := false } }
  else g

/-- The per-tick inputs that reach the lap logic for one car: the position,
heading and lap clock left by `handleInput`/`Car.update` (and collision
resolution of the previous tick), plus the wall clock. -/
structure TickIn where
  x : ℝ
  y : ℝ
  angle : ℝ
  clock : ℝ
  now : ℝ

/-- Install a tick's pose and lap clock on the car (the effect of the
dynamics step on the fields the lap logic reads). -/
noncomputable def moveCar (g : LapGame) (tk : TickIn) : LapGame :=
  { g with car := { g.car with
    x := tk.x, y := tk.y, angle := tk.angle, currentLapTime := tk.clock } }

/-- One tick of the lap pipeline, in the order of `Game.update()`:
dynamics, `checkCheckpoint`, `recordLapSample`, `checkLapCompletion`. -/
noncomputable def lapTick (g : LapGame) (tk : TickIn) : LapGame :=
  checkLapCompletion (recordLapSample (checkCheckpoint (moveCar g tk))) tk.now

/-- A sequence of ticks. -/
noncomputable def lapTicks (g : LapGame) (l : List TickIn) : LapGame :=
  l.foldl lapTick g

/-- A game state with the car on the finish line, checkpoint crossed, finish
flag clear and a 6000 ms lap clock. -/
noncomputable def lapW : LapGame where
  car := { mkCar 0 0 0 with crossedCheckpoint := true, currentLapTime := 6000 }
  lapSamples := []
  lastSampleTime := 0
  bestLap := none
  ghostStartTime := 0
  ghostCursor := 0
  ghostLastTime := 0
  winner := false
  lapsToWin := 3
  startPoint := ⟨0, 0⟩
  checkpointPoint := ⟨0, 0⟩

/-- The minimum-interval relation between consecutive lap samples. -/
def sampleGap (s1 s2 : Sample) : Prop := 30 ≤ s2.t - s1.t

/-- A game state mid-lap: one sample at 4980 ms in the buffer, lap clock at
5010 ms, car on the finish line with the checkpoint crossed. -/
noncomputable def lapG0 : LapGame where
  car := { mkCar 0 0 0 with crossedCheckpoint := true, currentLapTime := 5010 }
  lapSamples := [⟨4980, 0, 0, 0⟩]
  lastSampleTime := 4980
  bestLap := none
  ghostStartTime := 0
  ghostCursor := 0
  ghostLastTime := 0
  winner := false
  lapsToWin := 3
  startPoint := ⟨0, 0⟩
  checkpointPoint := ⟨0, 0⟩

lemma noInputTick_speed (c : Car) (r now : ℝ) :
    (noInputTick c r now).speed
      = c.speed * (0.95 * r + 0.82 * (1.0 - r)) := by
  simp [noInputTick, carUpdate, handleInputKeyboard]

lemma fullThrottleTick_speed (c : Car) (r now : ℝ) :
    (fullThrottleTick c r now).speed
      = min (c.speed + c.acceleration) (getCurrentMaxSpeed c)
          * (0.95 * r + 0.82 * (1.0 - r)) := by
  simp [fullThrottleTick, carUpdate, handleInputKeyboard, getCurrentMaxSpeed]

lemma fullThrottleTick_frame (c : Car) (r now : ℝ) :
    (fullThrottleTick c r now).maxSpeedAsphalt = c.maxSpeedAsphalt ∧
      (fullThrottleTick c r now).acceleration = c.acceleration ∧
      (fullThrottleTick c r now).tiresOnTrackRatio = r := by
  refine ⟨?_, ?_, ?_⟩ <;> simp [fullThrottleTick, carUpdate, handleInputKeyboard]

lemma blend_bounds {r : ℝ} (hr0 : 0 ≤ r) (hr1 : r ≤ 1) :
    0 < 0.95 * r + 0.82 * (1.0 - r) ∧ 0.95 * r + 0.82 * (1.0 - r) ≤ 0.95 := by
  constructor <;> nlinarith

lemma fullThrottleTick_speed_le (c : Car) (r now : ℝ)
    (hr0 : 0 ≤ r) (hr1 : r ≤ 1)
    (hc0 : 0 ≤ c.tiresOnTrackRatio) (hc1 : c.tiresOnTrackRatio ≤ 1)
    (hM : 0 ≤ c.maxSpeedAsphalt) :
    (fullThrottleTick c r now).speed ≤ c.maxSpeedAsphalt := by
  rw [fullThrottleTick_speed]
  have hcur : getCurrentMaxSpeed c ≤ c.maxSpeedAsphalt := by
    unfold getCurrentMaxSpeed; nlinarith
  have hb := blend_bounds hr0 hr1
  set m := min (c.speed + c.acceleration) (getCurrentMaxSpeed c) with hm
  have hmle : m ≤ c.maxSpeedAsphalt := le_trans (min_le_right _ _) hcur
  rcases le_or_lt 0 m with h0 | h0
  · calc m * (0.95 * r + 0.82 * (1.0 - r)) ≤ m * 1 := by nlinarith
    _ = m := mul_one m
    _ ≤ c.maxSpeedAsphalt := hmle
  · have : m * (0.95 * r + 0.82 * (1.0 - r)) ≤ 0 :=
      mul_nonpos_of_nonpos_of_nonneg h0.le hb.1.le
    linarith

lemma fullThrottleIter_frame (n : ℕ) :
    (fullThrottleIter n).maxSpeedAsphalt = 150 ∧
      (fullThrottleIter n).acceleration = 0.3 ∧
      (fullThrottleIter n).tiresOnTrackRatio = 1 := by
  induction n with
  | zero => refine ⟨?_, ?_, ?_⟩ <;> norm_num [fullThrottleIter, mkCar]
  | succ n ih =>
    have h := fullThrottleTick_frame (fullThrottleIter n) 1 0
    refine ⟨?_, ?_, ?_⟩ <;>
      simp only [fullThrottleIter, h.1, h.2.1, h.2.2, ih.1, ih.2.1]

/-- Closed form of the full-throttle speed sequence from a standing start on
asphalt: the friction/acceleration equilibrium is `57/10`, reached
geometrically with ratio `19/20`. -/
lemma fullThrottleSpeedSeq_closed (n : ℕ) :
    fullThrottleSpeedSeq n = 57/10 * (1 - (19/20 : ℝ) ^ n) := by
  induction n with
  | zero => norm_num [fullThrottleSpeedSeq, fullThrottleIter, mkCar]
  | succ n ih =>
    have ih' : (fullThrottleIter n).speed = 57/10 * (1 - (19/20 : ℝ) ^ n) := ih
    have hfr := fullThrottleIter_frame n
    have hq : (0:ℝ) ≤ (19/20 : ℝ) ^ n := by positivity
    have hcur : getCurrentMaxSpeed (fullThrottleIter n) = 150 := by
      unfold getCurrentMaxSpeed; rw [hfr.1, hfr.2.2]; norm_num
    have hseq : fullThrottleSpeedSeq (n + 1)
        = min ((fullThrottleIter n).speed + (fullThrottleIter n).acceleration)
            (getCurrentMaxSpeed (fullThrottleIter n)) * (0.95 * 1 + 0.82 * (1.0 - 1)) := by
      show (fullThrottleTick (fullThrottleIter n) 1 0).speed = _
      exact fullThrottleTick_speed _ 1 0
    rw [hseq, hfr.2.1, hcur,
      min_eq_left (by rw [ih']; norm_num; nlinarith), ih', pow_succ]
    ring

lemma fullThrottleRun_le (l : List (ℝ × ℝ)) :
    ∀ c : Car, (∀ p ∈ l, 0 ≤ p.1 ∧ p.1 ≤ 1) →
      0 ≤ c.tiresOnTrackRatio → c.tiresOnTrackRatio ≤ 1 →
      0 ≤ c.maxSpeedAsphalt → c.speed ≤ c.maxSpeedAsphalt →
      (fullThrottleRun c l).speed ≤ (fullThrottleRun c l).maxSpeedAsphalt ∧
        (fullThrottleRun c l).maxSpeedAsphalt = c.maxSpeedAsphalt := by
  induction l with
  | nil => exact fun c _ _ _ _ hs => ⟨hs, rfl⟩
  | cons p l ih =>
    intro c hmem hc0 hc1 hM hs
    have hp := hmem p (List.mem_cons_self _ _)
    have hrest : ∀ q ∈ l, 0 ≤ q.1 ∧ q.1 ≤ 1 :=
      fun q hq => hmem q (List.mem_cons_of_mem _ hq)
    have hframe := fullThrottleTick_frame c p.1 p.2
    have hstep := fullThrottleTick_speed_le c p.1 p.2 hp.1 hp.2 hc0 hc1 hM
    have hrun : fullThrottleRun c (p :: l) = fullThrottleRun (fullThrottleTick c p.1 p.2) l := rfl
    have := ih (fullThrottleTick c p.1 p.2) hrest
      (by rw [hframe.2.2]; exact hp.1) (by rw [hframe.2.2]; exact hp.2)
      (by rw [hframe.1]; exact hM) (by rw [hframe.1]; exact hstep)
    rw [hrun]
    exact ⟨this.1, by rw [this.2, hframe.1]⟩

/--
C6 (amended).  With the contact ratio in `[0, 1]` every tick, a car whose
speed is at most `maxSpeedAsphalt` keeps `speed ≤ maxSpeedAsphalt` after a
full-throttle tick and after any run of full-throttle ticks;  moreover from a
standing start on asphalt the speed sequence is monotone increasing but is
bounded by the friction equilibrium `57/10`, far below
`maxSpeedAsphalt = 150` (so it never comes near the asphalt cap).
-/
theorem fullThrottle_bounded (c : Car) (r now : ℝ)
    (hr0 : 0 ≤ r) (hr1 : r ≤ 1)
    (hc0 : 0 ≤ c.tiresOnTrackRatio) (hc1 : c.tiresOnTrackRatio ≤ 1)
    (hM : 0 ≤ c.maxSpeedAsphalt) (hs : c.speed ≤ c.maxSpeedAsphalt) :
    (fullThrottleTick c r now).speed ≤ c.maxSpeedAsphalt ∧
    (∀ l : List (ℝ × ℝ), (∀ p ∈ l, 0 ≤ p.1 ∧ p.1 ≤ 1) →
      (fullThrottleRun c l).speed ≤ c.maxSpeedAsphalt) ∧
    (∀ n : ℕ, fullThrottleSpeedSeq n ≤ fullThrottleSpeedSeq (n + 1) ∧
      fullThrottleSpeedSeq n ≤ 57/10) := by
  refine ⟨fullThrottleTick_speed_le c r now hr0 hr1 hc0 hc1 hM, ?_, ?_⟩
  · intro l hmem
    have h := fullThrottleRun_le l c hmem hc0 hc1 hM hs
    rw [← h.2]; exact h.1
  · intro n
    have h1 := fullThrottleSpeedSeq_closed n
    have h2 := fullThrottleSpeedSeq_closed (n + 1)
    have hq : (0:ℝ) ≤ (19/20 : ℝ) ^ n := by positivity
    constructor
    · rw [h1, h2, pow_succ]; nlinarith
    · rw [h1]; nlinarith

/-- C6 witness: the amended theorem applied to a freshly constructed car. -/
theorem fullThrottle_bounded_witness :
    ((0:ℝ) ≤ 1 ∧ (1:ℝ) ≤ 1 ∧ (0:ℝ) ≤ (mkCar 0 0 0).tiresOnTrackRatio ∧
      (mkCar 0 0 0).tiresOnTrackRatio ≤ 1 ∧ (0:ℝ) ≤ (mkCar 0 0 0).maxSpeedAsphalt ∧
      (mkCar 0 0 0).speed ≤ (mkCar 0 0 0).maxSpeedAsphalt) ∧
    (fullThrottleTick (mkCar 0 0 0) 1 0).speed ≤ (mkCar 0 0 0).maxSpeedAsphalt := by
  have h : (0:ℝ) ≤ 1 ∧ (1:ℝ) ≤ 1 ∧ (0:ℝ) ≤ (mkCar 0 0 0).tiresOnTrackRatio ∧
      (mkCar 0 0 0).tiresOnTrackRatio ≤ 1 ∧ (0:ℝ) ≤ (mkCar 0 0 0).maxSpeedAsphalt ∧
      (mkCar 0 0 0).speed ≤ (mkCar 0 0 0).maxSpeedAsphalt := by
    refine ⟨by norm_num, by norm_num, ?_, ?_, ?_, ?_⟩ <;> norm_num [mkCar]
  exact ⟨h, (fullThrottle_bounded (mkCar 0 0 0) 1 0 h.1 h.2.1 h.2.2.1 h.2.2.2.1
    h.2.2.2.2.1 h.2.2.2.2.2).1⟩

/--
C6 counterexample: under sustained full throttle on asphalt from a standing
start, the speed sequence converges to the friction equilibrium `57/10`, not
to `maxSpeedAsphalt = 150`; the claim's "approaching maxSpeedAsphalt
asymptotically" is false.
-/
theorem fullThrottle_not_approaching_max :
    Filter.Tendsto fullThrottleSpeedSeq Filter.atTop (nhds (57/10)) ∧
    ¬ Filter.Tendsto fullThrottleSpeedSeq Filter.atTop
        (nhds ((mkCar 0 0 0).maxSpeedAsphalt)) := by
  have hpow : Filter.Tendsto (fun n : ℕ => (19/20 : ℝ) ^ n) Filter.atTop (nhds 0) :=
    tendsto_pow_atTop_nhds_zero_of_lt_one (by norm_num) (by norm_num)
  have hmain : Filter.Tendsto fullThrottleSpeedSeq Filter.atTop (nhds (57/10)) := by
    have h2 : Filter.Tendsto (fun n : ℕ => 57/10 * (1 - (19/20 : ℝ) ^ n))
        Filter.atTop (nhds (57/10 * (1 - 0))) :=
      (Filter.Tendsto.const_sub 1 hpow).const_mul (57/10)
    have hfun : fullThrottleSpeedSeq = fun n : ℕ => 57/10 * (1 - (19/20 : ℝ) ^ n) :=
      funext fullThrottleSpeedSeq_closed
    rw [hfun]
    simpa using h2
  refine ⟨hmain, fun hcontra => ?_⟩
  have hM : (mkCar 0 0 0).maxSpeedAsphalt = 150 := by norm_num [mkCar]
  have := tendsto_nhds_unique hmain (hM ▸ hcontra)
  norm_num at this

lemma noInputRun_decay (l : List (ℝ × ℝ)) :
    ∀ c : Car, (∀ p ∈ l, 0 ≤ p.1 ∧ p.1 ≤ 1) →
      |(noInputRun c l).speed| ≤ (0.95 : ℝ) ^ l.length * |c.speed| := by
  induction l with
  | nil => intro c _; simp [noInputRun]
  | cons p l ih =>
    intro c hmem
    have hp := hmem p (List.mem_cons_self _ _)
    have hrest : ∀ q ∈ l, 0 ≤ q.1 ∧ q.1 ≤ 1 :=
      fun q hq => hmem q (List.mem_cons_of_mem _ hq)
    have hb := blend_bounds hp.1 hp.2
    have hstep : |(noInputTick c p.1 p.2).speed| ≤ 0.95 * |c.speed| := by
      rw [noInputTick_speed, abs_mul,
        abs_of_pos hb.1]
      nlinarith [abs_nonneg c.speed]
    have hrun : noInputRun c (p :: l) = noInputRun (noInputTick c p.1 p.2) l := rfl
    rw [hrun]
    calc |(noInputRun (noInputTick c p.1 p.2) l).speed|
        ≤ (0.95 : ℝ) ^ l.length * |(noInputTick c p.1 p.2).speed| :=
          ih (noInputTick c p.1 p.2) hrest
      _ ≤ (0.95 : ℝ) ^ l.length * (0.95 * |c.speed|) := by
          have : (0:ℝ) ≤ (0.95 : ℝ) ^ l.length := by positivity
          nlinarith
      _ = (0.95 : ℝ) ^ (p :: l).length * |c.speed| := by
          rw [List.length_cons, pow_succ]; ring

/--
C7.  With any contact ratio in `[0, 1]`, the friction multiplier
`0.95·r + 0.82·(1−r)` lies strictly between 0 and 1, a single no-input tick
multiplies the speed by exactly that factor — strictly decreasing `|speed|`
whenever the speed is nonzero — and over any run of no-input ticks `|speed|`
decays at least geometrically (ratio ≤ 0.95 per tick) toward zero.
-/
theorem friction_decay (c : Car) (r now : ℝ) (hr0 : 0 ≤ r) (hr1 : r ≤ 1) :
    (0 < 0.95 * r + 0.82 * (1.0 - r) ∧ 0.95 * r + 0.82 * (1.0 - r) < 1) ∧
    (noInputTick c r now).speed = c.speed * (0.95 * r + 0.82 * (1.0 - r)) ∧
    (c.speed ≠ 0 → |(noInputTick c r now).speed| < |c.speed|) ∧
    (∀ l : List (ℝ × ℝ), (∀ p ∈ l, 0 ≤ p.1 ∧ p.1 ≤ 1) →
      |(noInputRun c l).speed| ≤ (0.95 : ℝ) ^ l.length * |c.speed|) := by
  have hb := blend_bounds hr0 hr1
  refine ⟨⟨hb.1, by nlinarith⟩, noInputTick_speed c r now, ?_, fun l hl => noInputRun_decay l c hl⟩
  intro hs
  rw [noInputTick_speed, abs_mul, abs_of_pos hb.1]
  have habs : 0 < |c.speed| := abs_pos.mpr hs
  nlinarith

/-- C7 witness: the theorem applied to a car moving at speed 10 with contact
ratio 1/2. -/
theorem friction_decay_witness :
    ((0:ℝ) ≤ 1/2 ∧ (1/2 : ℝ) ≤ 1 ∧ ({ mkCar 0 0 0 with speed := 10 } : Car).speed ≠ 0) ∧
    |(noInputTick { mkCar 0 0 0 with speed := 10 } (1/2) 0).speed|
      < |({ mkCar 0 0 0 with speed := 10 } : Car).speed| := by
  have h1 : (0:ℝ) ≤ 1/2 := by norm_num
  have h2 : (1/2 : ℝ) ≤ 1 := by norm_num
  have h3 : ({ mkCar 0 0 0 with speed := 10 } : Car).speed ≠ 0 := by norm_num
  exact ⟨⟨h1, h2, h3⟩,
    (friction_decay { mkCar 0 0 0 with speed := 10 } (1/2) 0 h1 h2).2.2.1 h3⟩

lemma resolvePair_frame (a b : Car) :
    carFrame (resolvePair a b).1 = carFrame a ∧
      carFrame (resolvePair a b).2 = carFrame b := by
  unfold resolvePair
  dsimp only
  split_ifs <;> exact ⟨rfl, rfl⟩

lemma list_set_self {α : Type} (l : List α) (i : ℕ) (a : α)
    (h : l.get? i = some a) : l.set i a = l := by
  induction l generalizing i with
  | nil => rfl
  | cons x xs ih =>
    cases i with
    | zero => simp_all
    | succ i => simp only [List.set]; rw [ih i (by simpa using h)]

lemma resolveStep_frame (cars : List Car) (ij : ℕ × ℕ) :
    (resolveStep cars ij).map carFrame = cars.map carFrame := by
  unfold resolveStep
  cases hA : cars.get? ij.1 with
  | none => rfl
  | some a =>
    cases hB : cars.get? ij.2 with
    | none => rfl
    | some b =>
      have hf := resolvePair_frame a b
      have h1 : (cars.set ij.1 (resolvePair a b).1).map carFrame = cars.map carFrame := by
        rw [List.map_set, hf.1]
        exact list_set_self _ _ _ (by rw [List.get?_map, hA]; rfl)
      have h2 : ((cars.set ij.1 (resolvePair a b).1).set ij.2 (resolvePair a b).2).map carFrame
          = (cars.set ij.1 (resolvePair a b).1).map carFrame := by
        rw [List.map_set, hf.2]
        refine list_set_self _ _ _ ?_
        rw [h1, List.get?_map, hB]; rfl
      simp only []
      rw [h2, h1]

/--
C10.  `resolveCarCollisions` only ever modifies the `x`, `y` and `speed`
fields of the cars: for every list of cars, mapping the tuple of all other
fields (heading angle, turn rate, lap count, checkpoint/finish flags, lap
timing, tunables) over the result gives exactly the input tuples, and the
number of cars is unchanged.
-/
theorem resolveCarCollisions_frame (cars : List Car) :
    (resolveCarCollisions cars).map carFrame = cars.map carFrame ∧
      (resolveCarCollisions cars).length = cars.length := by
  have key : ∀ (l : List (ℕ × ℕ)) (cs : List Car),
      (l.foldl resolveStep cs).map carFrame = cs.map carFrame := by
    intro l
    induction l with
    | nil => intro cs; rfl
    | cons p l ih =>
      intro cs
      have : (p :: l).foldl resolveStep cs = l.foldl resolveStep (resolveStep cs p) := rfl
      rw [this, ih (resolveStep cs p), resolveStep_frame]
  have h := key (pairIndices cars.length) cars
  refine ⟨h, ?_⟩
  have := congrArg List.length h
  simpa using this

lemma resolvePair_skip (a b : Car)
    (h : pairDist a b = 0 ∨ pairDist a b ≥ pairMinDist a b) :
    resolvePair a b = (a, b) := by
  unfold pairDist pairMinDist at h
  unfold resolvePair
  dsimp only
  rw [if_pos h]

lemma resolvePair_eval (a b : Car)
    (hcond : ¬ (pairDist a b = 0 ∨ pairDist a b ≥ pairMinDist a b)) :
    resolvePair a b =
      if pairVelAlongNormal a b > 0 then
        ({ a with x := a.x - pairNormalX a b * (pairMinDist a b - pairDist a b) * 0.5,
                  y := a.y - pairNormalY a b * (pairMinDist a b - pairDist a b) * 0.5 },
         { b with x := b.x + pairNormalX a b * (pairMinDist a b - pairDist a b) * 0.5,
                  y := b.y + pairNormalY a b * (pairMinDist a b - pairDist a b) * 0.5 })
      else
        ({ a with x := a.x - pairNormalX a b * (pairMinDist a b - pairDist a b) * 0.5,
                  y := a.y - pairNormalY a b * (pairMinDist a b - pairDist a b) * 0.5,
                  speed := (max
                    (min (impulseSpeedA a b) (getCurrentMaxSpeed a))
                    (-(getCurrentMaxSpeed a) * 0.5)) },
         { b with x := b.x + pairNormalX a b * (pairMinDist a b - pairDist a b) * 0.5,
                  y := b.y + pairNormalY a b * (pairMinDist a b - pairDist a b) * 0.5,
                  speed := (max
                    (min (impulseSpeedB a b) (getCurrentMaxSpeed b))
                    (-(getCurrentMaxSpeed b) * 0.5)) }) := by
  unfold pairDist pairMinDist at hcond
  unfold resolvePair impulseSpeedA impulseSpeedB pairImpulse pairVelAlongNormal
    pairNormalX pairNormalY carForwardX carForwardY pairDist pairMinDist
  dsimp only
  rw [if_neg hcond]
  rfl

lemma dist_after_push {x1 y1 x2 y2 D M : ℝ}
    (hD : D = Real.sqrt ((x2 - x1) ^ 2 + (y2 - y1) ^ 2)) (h0 : 0 < D) (h1 : D < M) :
    Real.sqrt ((x2 + (x2 - x1) / D * (M - D) * 0.5 - (x1 - (x2 - x1) / D * (M - D) * 0.5)) ^ 2
      + (y2 + (y2 - y1) / D * (M - D) * 0.5 - (y1 - (y2 - y1) / D * (M - D) * 0.5)) ^ 2) = M := by
  have hDne : D ≠ 0 := ne_of_gt h0
  have hD2 : (x2 - x1) ^ 2 + (y2 - y1) ^ 2 = D ^ 2 := by
    rw [hD]; exact (Real.sq_sqrt (by positivity)).symm
  have hx : x2 + (x2 - x1) / D * (M - D) * 0.5 - (x1 - (x2 - x1) / D * (M - D) * 0.5)
      = (x2 - x1) * M / D := by field_simp; ring
  have hy : y2 + (y2 - y1) / D * (M - D) * 0.5 - (y1 - (y2 - y1) / D * (M - D) * 0.5)
      = (y2 - y1) * M / D := by field_simp; ring
  rw [hx, hy]
  have hsum : ((x2 - x1) * M / D) ^ 2 + ((y2 - y1) * M / D) ^ 2 = M ^ 2 := by
    field_simp
    linear_combination M ^ 2 * hD2
  rw [hsum, Real.sqrt_sq (le_of_lt (lt_trans h0 h1))]

lemma clamp_range {s M T : ℝ} (h0 : 0 ≤ M) (h1 : M ≤ T) :
    -T * 0.5 ≤ max (min s M) (-M * 0.5) ∧ max (min s M) (-M * 0.5) ≤ T := by
  constructor
  · exact le_trans (by linarith) (le_max_right _ _)
  · exact max_le (le_trans (min_le_right _ _) h1) (by linarith)

lemma getCurrentMaxSpeed_bounds (c : Car) (h0 : 0 ≤ c.tiresOnTrackRatio)
    (h1 : c.tiresOnTrackRatio ≤ 1) (hM : 0 ≤ c.maxSpeedAsphalt) :
    0 ≤ getCurrentMaxSpeed c ∧ getCurrentMaxSpeed c ≤ c.maxSpeedAsphalt := by
  unfold getCurrentMaxSpeed; constructor <;> nlinarith

/--
C2 (amended).  For a pair of cars at exactly the same position the loop body
skips the pair, leaving both cars unchanged (no division by zero).  For a
colliding pair (`0 < dist < sum of radii`) with contact ratios in `[0,1]`,
nonnegative speed caps and legal incoming speeds: the post-resolution
distance between centers is exactly the sum of the collision radii, and each
car's resulting speed stays in its legal `[−maxSpeedAsphalt·0.5,
maxSpeedAsphalt]` range — via the clamp when the pair is approaching, and
because the speeds are left untouched when the pair is separating.  (The
claim's "total forward-speed magnitude does not increase" is refuted
separately.)
-/
theorem resolvePair_separation_and_clamp (a b : Car)
    (ha0 : 0 ≤ a.tiresOnTrackRatio) (ha1 : a.tiresOnTrackRatio ≤ 1)
    (hb0 : 0 ≤ b.tiresOnTrackRatio) (hb1 : b.tiresOnTrackRatio ≤ 1)
    (hMa : 0 ≤ a.maxSpeedAsphalt) (hMb : 0 ≤ b.maxSpeedAsphalt)
    (hsa : -a.maxSpeedAsphalt * 0.5 ≤ a.speed ∧ a.speed ≤ a.maxSpeedAsphalt)
    (hsb : -b.maxSpeedAsphalt * 0.5 ≤ b.speed ∧ b.speed ≤ b.maxSpeedAsphalt) :
    (pairDist a b = 0 → resolvePair a b = (a, b)) ∧
    (0 < pairDist a b → pairDist a b < pairMinDist a b →
      pairDist (resolvePair a b).1 (resolvePair a b).2 = pairMinDist a b ∧
      (-a.maxSpeedAsphalt * 0.5 ≤ (resolvePair a b).1.speed ∧
        (resolvePair a b).1.speed ≤ a.maxSpeedAsphalt) ∧
      (-b.maxSpeedAsphalt * 0.5 ≤ (resolvePair a b).2.speed ∧
        (resolvePair a b).2.speed ≤ b.maxSpeedAsphalt)) := by
  constructor
  · intro h; exact resolvePair_skip a b (Or.inl h)
  · intro h0 h1
    have hcond : ¬ (pairDist a b = 0 ∨ pairDist a b ≥ pairMinDist a b) :=
      not_or.mpr ⟨h0.ne', not_le.mpr h1⟩
    have hMcurA := getCurrentMaxSpeed_bounds a ha0 ha1 hMa
    have hMcurB := getCurrentMaxSpeed_bounds b hb0 hb1 hMb
    have hdist : ∀ ca cb : Car,
        ca.x = a.x - pairNormalX a b * (pairMinDist a b - pairDist a b) * 0.5 →
        ca.y = a.y - pairNormalY a b * (pairMinDist a b - pairDist a b) * 0.5 →
        cb.x = b.x + pairNormalX a b * (pairMinDist a b - pairDist a b) * 0.5 →
        cb.y = b.y + pairNormalY a b * (pairMinDist a b - pairDist a b) * 0.5 →
        pairDist ca cb = pairMinDist a b := by
      intro ca cb hax hay hbx hby
      simp only [pairDist, pairNormalX, pairNormalY] at hax hay hbx hby ⊢
      rw [hax, hay, hbx, hby]
      exact dist_after_push rfl h0 h1
    rw [resolvePair_eval a b hcond]
    split_ifs with hvan
    · exact ⟨hdist _ _ rfl rfl rfl rfl, hsa, hsb⟩
    · refine ⟨hdist _ _ rfl rfl rfl rfl, ?_, ?_⟩
      · exact clamp_range hMcurA.1 hMcurA.2
      · exact clamp_range hMcurB.1 hMcurB.2

/-- C2 witness: the amended theorem applied to two overlapping stationary
cars 10 units apart (radii sum 38.7): the pair is pushed to exactly 38.7. -/
theorem resolvePair_separation_and_clamp_witness :
    (0 < pairDist (mkCar 0 0 0) (mkCar 10 0 0) ∧
      pairDist (mkCar 0 0 0) (mkCar 10 0 0) < pairMinDist (mkCar 0 0 0) (mkCar 10 0 0)) ∧
    pairDist (resolvePair (mkCar 0 0 0) (mkCar 10 0 0)).1
        (resolvePair (mkCar 0 0 0) (mkCar 10 0 0)).2
      = pairMinDist (mkCar 0 0 0) (mkCar 10 0 0) := by
  have h10 : pairDist (mkCar 0 0 0) (mkCar 10 0 0) = 10 := by
    simp only [pairDist, mkCar]
    rw [show ((10:ℝ) - 0) ^ 2 + ((0:ℝ) - 0) ^ 2 = 10 ^ 2 by norm_num,
      Real.sqrt_sq (by norm_num : (0:ℝ) ≤ 10)]
  have hmin : pairMinDist (mkCar 0 0 0) (mkCar 10 0 0) = 38.7 := by
    simp only [pairMinDist, getCollisionRadius, mkCar]
    rw [max_eq_right (by norm_num : (23:ℝ) ≤ 43)]
    norm_num
  have h0 : 0 < pairDist (mkCar 0 0 0) (mkCar 10 0 0) := by rw [h10]; norm_num
  have h1 : pairDist (mkCar 0 0 0) (mkCar 10 0 0)
      < pairMinDist (mkCar 0 0 0) (mkCar 10 0 0) := by rw [h10, hmin]; norm_num
  have hres := (resolvePair_separation_and_clamp (mkCar 0 0 0) (mkCar 10 0 0)
    (by norm_num [mkCar]) (by norm_num [mkCar]) (by norm_num [mkCar]) (by norm_num [mkCar])
    (by norm_num [mkCar]) (by norm_num [mkCar])
    (by constructor <;> norm_num [mkCar]) (by constructor <;> norm_num [mkCar])).2 h0 h1
  exact ⟨⟨h0, h1⟩, hres.1⟩

lemma pairDist_ten {a b : Car} (hax : a.x = 0) (hay : a.y = 0)
    (hbx : b.x = 10) (hby : b.y = 0) : pairDist a b = 10 := by
  simp only [pairDist, hax, hay, hbx, hby]
  rw [show ((10:ℝ) - 0) ^ 2 + ((0:ℝ) - 0) ^ 2 = 10 ^ 2 by norm_num,
    Real.sqrt_sq (by norm_num : (0:ℝ) ≤ 10)]

lemma pairMinDist_mk {a b : Car} (haw : a.width = 23) (hah : a.height = 43)
    (hbw : b.width = 23) (hbh : b.height = 43) : pairMinDist a b = 38.7 := by
  simp only [pairMinDist, getCollisionRadius, haw, hah, hbw, hbh]
  rw [max_eq_right (by norm_num : (23:ℝ) ≤ 43)]
  norm_num

/--
C2 counterexample.  Two failures of the claim on genuine colliding pairs
(`0 < distance < sum of radii`):
* for the pair `colA`/`colB` (headings misaligned with the contact normal)
  the sum of the forward-speed magnitudes strictly increases, from 1 to
  171/160 = 1.06875 — energy is not dissipated;
* for the pair `sepA`/`sepB` the relative normal velocity is separating, the
  velocity step (including the final speed clamp) is skipped, and `sepA`
  keeps a speed of 200, far outside its legal range
  `[−75, 150] = [−maxSpeedAsphalt·0.5, maxSpeedAsphalt]`.
-/
theorem resolvePair_energy_and_range_violation :
    (0 < pairDist colA colB ∧ pairDist colA colB < pairMinDist colA colB) ∧
    |colA.speed| + |colB.speed|
      < |(resolvePair colA colB).1.speed| + |(resolvePair colA colB).2.speed| ∧
    (0 < pairDist sepA sepB ∧ pairDist sepA sepB < pairMinDist sepA sepB) ∧
    (resolvePair sepA sepB).1.speed = 200 ∧
    sepA.maxSpeedAsphalt < (resolvePair sepA sepB).1.speed := by
  have hd1 : pairDist colA colB = 10 := pairDist_ten rfl rfl rfl rfl
  have hm1 : pairMinDist colA colB = 38.7 := pairMinDist_mk rfl rfl rfl rfl
  have hd2 : pairDist sepA sepB = 10 := pairDist_ten rfl rfl rfl rfl
  have hm2 : pairMinDist sepA sepB = 38.7 := pairMinDist_mk rfl rfl rfl rfl
  have hlt1 : 0 < pairDist colA colB := by rw [hd1]; norm_num
  have hlt1' : pairDist colA colB < pairMinDist colA colB := by rw [hd1, hm1]; norm_num
  have hlt2 : 0 < pairDist sepA sepB := by rw [hd2]; norm_num
  have hlt2' : pairDist sepA sepB < pairMinDist sepA sepB := by rw [hd2, hm2]; norm_num
  have hcond1 : ¬ (pairDist colA colB = 0 ∨ pairDist colA colB ≥ pairMinDist colA colB) :=
    not_or.mpr ⟨hlt1.ne', not_le.mpr hlt1'⟩
  have hcond2 : ¬ (pairDist sepA sepB = 0 ∨ pairDist sepA sepB ≥ pairMinDist sepA sepB) :=
    not_or.mpr ⟨hlt2.ne', not_le.mpr hlt2'⟩
  -- forward vectors of the first pair
  have hfAX : carForwardX colA = 1/2 := by
    unfold carForwardX
    rw [show colA.angle - Real.pi/2 = Real.pi/3 by
      show 5 * Real.pi / 6 - Real.pi/2 = Real.pi/3; ring]
    exact Real.cos_pi_div_three
  have hfAY : carForwardY colA = Real.sqrt 3 / 2 := by
    unfold carForwardY
    rw [show colA.angle - Real.pi/2 = Real.pi/3 by
      show 5 * Real.pi / 6 - Real.pi/2 = Real.pi/3; ring]
    exact Real.sin_pi_div_three
  have hfBX : carForwardX colB = -1 := by
    unfold carForwardX
    rw [show colB.angle - Real.pi/2 = Real.pi by
      show 3 * Real.pi / 2 - Real.pi/2 = Real.pi; ring]
    exact Real.cos_pi
  have hfBY : carForwardY colB = 0 := by
    unfold carForwardY
    rw [show colB.angle - Real.pi/2 = Real.pi by
      show 3 * Real.pi / 2 - Real.pi/2 = Real.pi; ring]
    exact Real.sin_pi
  have hnX1 : pairNormalX colA colB = 1 := by
    unfold pairNormalX; rw [hd1]
    show ((mkCar 10 0 (3 * Real.pi / 2)).x - colA.x) / 10 = 1
    norm_num [mkCar, colA]
  have hnY1 : pairNormalY colA colB = 0 := by
    unfold pairNormalY; rw [hd1]
    show ((mkCar 10 0 (3 * Real.pi / 2)).y - colA.y) / 10 = 0
    norm_num [mkCar, colA]
  have hsA1 : colA.speed = 1 := rfl
  have hsB1 : colB.speed = 0 := rfl
  have hvan1 : pairVelAlongNormal colA colB = -(1/2) := by
    unfold pairVelAlongNormal
    rw [hfAX, hfAY, hfBX, hfBY, hnX1, hnY1, hsA1, hsB1]
    ring
  have himp : pairImpulse colA colB = 3/8 := by
    unfold pairImpulse; rw [hvan1]; norm_num
  have h3 : Real.sqrt 3 * Real.sqrt 3 = 3 := Real.mul_self_sqrt (by norm_num)
  have hisA : impulseSpeedA colA colB = 117/160 := by
    unfold impulseSpeedA
    rw [hfAX, hfAY, hnX1, hnY1, himp, hsA1]
    linear_combination (9/40) * h3
  have hisB : impulseSpeedB colA colB = -(27/80) := by
    unfold impulseSpeedB
    rw [hfBX, hfBY, hnX1, hnY1, himp, hsB1]
    ring
  have hMA : getCurrentMaxSpeed colA = 150 := by
    show colA.maxSpeedAsphalt * (1.0 - (1.0 - colA.tiresOnTrackRatio) * 0.04) = 150
    norm_num [colA, mkCar]
  have hMB : getCurrentMaxSpeed colB = 150 := by
    show colB.maxSpeedAsphalt * (1.0 - (1.0 - colB.tiresOnTrackRatio) * 0.04) = 150
    norm_num [colB, mkCar]
  have hpair1 : |colA.speed| + |colB.speed|
      < |(resolvePair colA colB).1.speed| + |(resolvePair colA colB).2.speed| := by
    rw [resolvePair_eval colA colB hcond1, if_neg (by rw [hvan1]; norm_num)]
    show |colA.speed| + |colB.speed|
        < |(max (min (impulseSpeedA colA colB) (getCurrentMaxSpeed colA))
            (-(getCurrentMaxSpeed colA) * 0.5))|
          + |(max (min (impulseSpeedB colA colB) (getCurrentMaxSpeed colB))
            (-(getCurrentMaxSpeed colB) * 0.5))|
    rw [hisA, hisB, hMA, hMB, hsA1, hsB1]
    rw [min_eq_left (by norm_num), min_eq_left (by norm_num),
      max_eq_left (by norm_num), max_eq_left (by norm_num)]
    rw [abs_of_pos (by norm_num : (0:ℝ) < 117/160), abs_of_neg (by norm_num : -(27/80:ℝ) < 0)]
    norm_num
  -- second pair: separating, speed clamp skipped
  have hfAX2 : carForwardX sepA = -1 := by
    unfold carForwardX
    rw [show sepA.angle - Real.pi/2 = -Real.pi by
      show -Real.pi / 2 - Real.pi/2 = -Real.pi; ring]
    rw [Real.cos_neg]; exact Real.cos_pi
  have hfAY2 : carForwardY sepA = 0 := by
    unfold carForwardY
    rw [show sepA.angle - Real.pi/2 = -Real.pi by
      show -Real.pi / 2 - Real.pi/2 = -Real.pi; ring]
    rw [Real.sin_neg, Real.sin_pi]; ring
  have hfBX2 : carForwardX sepB = 0 := by
    unfold carForwardX
    rw [show sepB.angle - Real.pi/2 = -(Real.pi/2) by
      show 0 - Real.pi/2 = -(Real.pi/2); ring]
    rw [Real.cos_neg]; exact Real.cos_pi_div_two
  have hnX2 : pairNormalX sepA sepB = 1 := by
    unfold pairNormalX; rw [hd2]
    show ((mkCar 10 0 0).x - sepA.x) / 10 = 1
    norm_num [mkCar, sepA]
  have hnY2 : pairNormalY sepA sepB = 0 := by
    unfold pairNormalY; rw [hd2]
    show ((mkCar 10 0 0).y - sepA.y) / 10 = 0
    norm_num [mkCar, sepA]
  have hsA2 : sepA.speed = 200 := rfl
  have hsB2 : sepB.speed = 0 := rfl
  have hvan2 : pairVelAlongNormal sepA sepB = 200 := by
    unfold pairVelAlongNormal
    rw [hfAX2, hfAY2, hfBX2, hnX2, hnY2, hsA2, hsB2]
    ring
  have hskip : (resolvePair sepA sepB).1.speed = 200 := by
    rw [resolvePair_eval sepA sepB hcond2, if_pos (by rw [hvan2]; norm_num)]
    exact hsA2
  refine ⟨⟨hlt1, hlt1'⟩, hpair1, ⟨hlt2, hlt2'⟩, hskip, ?_⟩
  rw [hskip]
  show (mkCar 0 0 (-Real.pi / 2)).maxSpeedAsphalt < 200
  norm_num [mkCar]

lemma applyLateralOffset_length (pts : List Point) (i : ℕ) (o : ℝ) :
    (applyLateralOffset pts i o).length = pts.length := by
  unfold applyLateralOffset
  split_ifs
  · rfl
  · split <;> simp [List.length_set]

lemma foldl_offsets_length (s : ℕ) (l : List (ℕ × ℝ)) :
    ∀ pts : List Point,
      (l.foldl (fun ps io => applyLateralOffset ps (s + io.1) io.2) pts).length
        = pts.length := by
  induction l with
  | nil => intro pts; rfl
  | cons a l ih =>
    intro pts
    show (l.foldl _ (applyLateralOffset pts (s + a.1) a.2)).length = _
    rw [ih, applyLateralOffset_length]

lemma applyFeature_length (ti : ℕ) (pts : List Point) :
    (applyFeature ti pts).length = pts.length := by
  unfold applyFeature
  exact foldl_offsets_length _ _ pts

lemma basePoints_length (ti : ℕ) : (basePoints ti).length = 28 := by
  simp [basePoints]

lemma generateTrack_length (ti : ℕ) : (generateTrack ti).length = 29 := by
  unfold generateTrack
  have hlen : (applyFeature ti (basePoints ti)).length = 28 := by
    rw [applyFeature_length, basePoints_length]
  cases hm : (applyFeature ti (basePoints ti)).get? 0 with
  | none =>
    rw [List.get?_eq_none] at hm
    omega
  | some p => simp [hlen]

lemma nthP_isSome (pts : List Point) (k : ℕ) (hk : k < pts.length) :
    ∃ p, nthP pts (k : ℤ) = some p := by
  unfold nthP
  rw [if_pos (by positivity), Int.toNat_ofNat]
  exact List.get?_eq_get hk ▸ ⟨pts.get ⟨k, hk⟩, rfl⟩

/--
C3.  For every track index, `getTrackPoint(0)` and `getTrackPoint(1)`
evaluate to exactly the same point (both land on segment 0 with Bézier
parameter 0), and that point exists (the reads all succeed): the loop closes
exactly at the seam.
-/
theorem trackPoint_loop_closure (ti : ℕ) :
    getTrackPoint (generateTrack ti) 0 = getTrackPoint (generateTrack ti) 1 ∧
    (getTrackPoint (generateTrack ti) 0).isSome = true := by
  have hlen := generateTrack_length ti
  have h28 : (((generateTrack ti).length : ℤ) - 1) = 28 := by rw [hlen]; norm_num
  have hidx0 : trackIndexOf 28 0 = 0 := by
    unfold trackIndexOf segIndexOf
    norm_num
  have hidx1 : trackIndexOf 28 1 = 0 := by
    unfold trackIndexOf segIndexOf
    norm_num [Int.tmod_self]
  have hu0 : trackUOf 28 0 = 0 := by
    unfold trackUOf segIndexOf; norm_num
  have hu1 : trackUOf 28 1 = 0 := by
    unfold trackUOf segIndexOf; norm_num
  unfold getTrackPoint
  dsimp only
  rw [h28, hidx0, hidx1, hu0, hu1]
  constructor
  · rfl
  · obtain ⟨c1, hc1⟩ := nthP_isSome (generateTrack ti) 1 (by rw [hlen]; norm_num)
    obtain ⟨p0, hp0⟩ := nthP_isSome (generateTrack ti) 0 (by rw [hlen]; norm_num)
    obtain ⟨p2, hp2⟩ := nthP_isSome (generateTrack ti) 2 (by rw [hlen]; norm_num)
    norm_num at hc1 hp0 hp2
    simp [hc1, hp0, hp2]

lemma trackParam_fract (n : ℤ) (hn : 0 ≤ n) (t : ℝ) (ht : 0 ≤ t) :
    trackIndexOf n t = trackIndexOf n (Int.fract t) ∧
      trackUOf n t = trackUOf n (Int.fract t) := by
  have hseg : segIndexOf n (Int.fract t) = segIndexOf n t - ⌊t⌋ * n := by
    unfold segIndexOf
    rw [show Int.fract t * (n : ℝ) = t * (n : ℝ) - ((⌊t⌋ * n : ℤ) : ℝ) by
      rw [Int.fract]; push_cast; ring]
    exact Int.floor_sub_int _ _
  constructor
  · unfold trackIndexOf
    rw [hseg]
    have h1 : 0 ≤ segIndexOf n t := by
      unfold segIndexOf
      exact Int.floor_nonneg.mpr (by positivity)
    have h2 : 0 ≤ segIndexOf n t - ⌊t⌋ * n := by
      rw [← hseg]
      unfold segIndexOf
      exact Int.floor_nonneg.mpr (mul_nonneg (Int.fract_nonneg t) (by exact_mod_cast hn))
    rw [Int.tmod_eq_emod h1 hn, Int.tmod_eq_emod h2 hn,
      show segIndexOf n t - ⌊t⌋ * n = segIndexOf n t + n * (-⌊t⌋) by ring,
      Int.add_mul_emod_self_left]
  · unfold trackUOf
    rw [hseg]
    push_cast
    rw [Int.fract]
    ring

/--
C4 (amended).  For every `t ≥ 0`, `getTrackPoint` and `getTrackDirection`
normalize the parameter modulo the loop: the result at `t` equals the result
at `t − ⌊t⌋`.  (For `t < 0` normalization is not reliable: the JS `%` keeps
the dividend's sign, so when `⌊28t⌋` is not a multiple of 28 — e.g.
`t = −1/56` — the segment index is negative, the lookup reads a negative
array index and yields no valid point, while a negative `t` whose `⌊28t⌋` is
a multiple of 28 — e.g. `t = −99/100` — lands on the `index = 0` branch and
still returns the normalized point; see the counterexample for both.)
-/
theorem trackParam_normalized_nonneg (ti : ℕ) (t : ℝ) (ht : 0 ≤ t) :
    getTrackPoint (generateTrack ti) t = getTrackPoint (generateTrack ti) (Int.fract t) ∧
    getTrackDirection (generateTrack ti) t
      = getTrackDirection (generateTrack ti) (Int.fract t) := by
  have hlen := generateTrack_length ti
  have h28 : (((generateTrack ti).length : ℤ) - 1) = 28 := by rw [hlen]; norm_num
  have hkey := trackParam_fract 28 (by norm_num) t ht
  constructor
  · unfold getTrackPoint
    dsimp only
    rw [h28, hkey.1, hkey.2]
  · unfold getTrackDirection
    dsimp only
    rw [h28, hkey.1, hkey.2]

/-- C4 witness: the amended theorem applied at `t = 3/2` on track 0. -/
theorem trackParam_normalized_nonneg_witness :
    (0:ℝ) ≤ 3/2 ∧
    getTrackPoint (generateTrack 0) (3/2)
      = getTrackPoint (generateTrack 0) (Int.fract (3/2 : ℝ)) := by
  exact ⟨by norm_num, (trackParam_normalized_nonneg 0 (3/2) (by norm_num)).1⟩

/--
C4 counterexample.  At the negative parameter `t = −1/56` the JS remainder
makes the segment index `−1`, so `getTrackPoint` reads `points[-1]`
(`undefined` — a crash in JS, `none` here) instead of normalizing, while at
the normalized parameter `t − ⌊t⌋ = 55/56` it returns a valid point: the two
results differ, refuting the claim for `t < 0`.  The failure is confined to
negative `t` whose `⌊28t⌋` is not a multiple of 28: at `t = −99/100`
(`⌊28t⌋ = −28`, JS remainder 0) the `index = 0` branch is taken and the
query still returns the normalized point, equal to the one at `1/100`.
-/
theorem trackPoint_negative_t_invalid :
    getTrackPoint (generateTrack 0) (-(1/56)) = none ∧
    Int.fract (-(1/56 : ℝ)) = 55/56 ∧
    (getTrackPoint (generateTrack 0) (55/56)).isSome = true ∧
    getTrackPoint (generateTrack 0) (-(1/56))
      ≠ getTrackPoint (generateTrack 0) (55/56) ∧
    Int.fract (-(99/100 : ℝ)) = 1/100 ∧
    getTrackPoint (generateTrack 0) (-(99/100))
      = getTrackPoint (generateTrack 0) (1/100) ∧
    (getTrackPoint (generateTrack 0) (-(99/100))).isSome = true := by
  have hlen := generateTrack_length 0
  have h28 : (((generateTrack 0).length : ℤ) - 1) = 28 := by rw [hlen]; norm_num
  have hfr : Int.fract (-(1/56 : ℝ)) = 55/56 := by
    rw [Int.fract]
    norm_num
  have hfr99 : Int.fract (-(99/100 : ℝ)) = 1/100 := by
    rw [Int.fract]
    norm_num
  have hidxneg : trackIndexOf 28 (-(1/56)) = -1 := by
    unfold trackIndexOf segIndexOf
    rw [show (-(1/56) : ℝ) * ((28 : ℤ) : ℝ) = -(1/2) by push_cast; ring]
    norm_num
    decide
  have hidx55 : trackIndexOf 28 (55/56) = 27 := by
    unfold trackIndexOf segIndexOf
    rw [show ((55/56) : ℝ) * ((28 : ℤ) : ℝ) = 55/2 by push_cast; ring]
    norm_num
    decide
  have hidx99 : trackIndexOf 28 (-(99/100)) = 0 := by
    unfold trackIndexOf segIndexOf
    rw [show (-(99/100) : ℝ) * ((28 : ℤ) : ℝ) = -(693/25) by push_cast; ring]
    norm_num
  have hidx001 : trackIndexOf 28 (1/100) = 0 := by
    unfold trackIndexOf segIndexOf
    rw [show ((1/100) : ℝ) * ((28 : ℤ) : ℝ) = 7/25 by push_cast; ring]
    norm_num
  have hu99 : trackUOf 28 (-(99/100)) = 7/25 := by
    unfold trackUOf segIndexOf
    rw [show (-(99/100) : ℝ) * ((28 : ℤ) : ℝ) = -(693/25) by push_cast; ring]
    norm_num
  have hu001 : trackUOf 28 (1/100) = 7/25 := by
    unfold trackUOf segIndexOf
    rw [show ((1/100) : ℝ) * ((28 : ℤ) : ℝ) = 7/25 by push_cast; ring]
    norm_num
  have hnone : nthP (generateTrack 0) (-1 : ℤ) = none := by
    unfold nthP
    rw [if_neg (by norm_num)]
  obtain ⟨q0, hq0⟩ := nthP_isSome (generateTrack 0) 0 (by rw [hlen]; norm_num)
  obtain ⟨q1, hq1⟩ := nthP_isSome (generateTrack 0) 1 (by rw [hlen]; norm_num)
  obtain ⟨q2, hq2⟩ := nthP_isSome (generateTrack 0) 2 (by rw [hlen]; norm_num)
  obtain ⟨q27, hq27⟩ := nthP_isSome (generateTrack 0) 27 (by rw [hlen]; norm_num)
  obtain ⟨q28, hq28⟩ := nthP_isSome (generateTrack 0) 28 (by rw [hlen]; norm_num)
  norm_num at hq0 hq1 hq2 hq27 hq28
  have hN : getTrackPoint (generateTrack 0) (-(1/56)) = none := by
    unfold getTrackPoint
    dsimp only
    rw [h28, hidxneg]
    norm_num [hq0, hnone]
  have hS : (getTrackPoint (generateTrack 0) (55/56)).isSome = true := by
    unfold getTrackPoint
    dsimp only
    rw [h28, hidx55]
    norm_num [hq0, hq27, hq28]
  have hEq99 : getTrackPoint (generateTrack 0) (-(99/100))
      = getTrackPoint (generateTrack 0) (1/100) := by
    unfold getTrackPoint
    dsimp only
    rw [h28, hidx99, hidx001, hu99, hu001]
  have hS99 : (getTrackPoint (generateTrack 0) (-(99/100))).isSome = true := by
    unfold getTrackPoint
    dsimp only
    rw [h28, hidx99]
    norm_num [hq0, hq1, hq2]
  refine ⟨hN, hfr, hS, ?_, hfr99, hEq99, hS99⟩
  rw [hN]
  intro h
  rw [← h] at hS
  simp at hS

/--
C8 (amended).  Whenever `b - a ≥ -3π` the applied delta is congruent to
`b - a` modulo 2π and has absolute value at most π (shortest arc), and the
interpolation is linear in that delta; in particular between 350° and 10°
the delta is +20° (π/9), keeping the result near 0°/360°.  (When
`b - a < -3π` the JS remainder is negative and the delta leaves `[-π, π]` —
see the counterexample.)
-/
theorem interpolateAngle_shortest_arc (a b t : ℝ) (h : 0 ≤ b - a + Real.pi * 3) :
    (∃ k : ℤ, interpolateDelta a b = b - a + 2 * Real.pi * k) ∧
    |interpolateDelta a b| ≤ Real.pi ∧
    interpolateAngle a b t = a + interpolateDelta a b * t ∧
    interpolateDelta (35 * Real.pi / 18) (Real.pi / 18) = Real.pi / 9 := by
  have hpi := Real.pi_pos
  have hy : 0 < Real.pi * 2 := by linarith
  have hquot : 0 ≤ (b - a + Real.pi * 3) / (Real.pi * 2) := div_nonneg h hy.le
  have htr : jsTrunc ((b - a + Real.pi * 3) / (Real.pi * 2))
      = ⌊(b - a + Real.pi * 3) / (Real.pi * 2)⌋ := by
    unfold jsTrunc; rw [if_pos hquot]
  have hrem : jsRem (b - a + Real.pi * 3) (Real.pi * 2)
      = (Real.pi * 2) * Int.fract ((b - a + Real.pi * 3) / (Real.pi * 2)) := by
    unfold jsRem
    rw [htr, Int.fract]
    field_simp
  have hfr0 := Int.fract_nonneg ((b - a + Real.pi * 3) / (Real.pi * 2))
  have hfr1 := Int.fract_lt_one ((b - a + Real.pi * 3) / (Real.pi * 2))
  refine ⟨?_, ?_, rfl, ?_⟩
  · refine ⟨1 - ⌊(b - a + Real.pi * 3) / (Real.pi * 2)⌋, ?_⟩
    unfold interpolateDelta jsRem
    rw [htr]
    push_cast
    have hx : b - a + Real.pi * 3
        = ((b - a + Real.pi * 3) / (Real.pi * 2)) * (Real.pi * 2) := by
      field_simp
    ring
  · unfold interpolateDelta
    rw [hrem, abs_le]
    constructor <;> nlinarith
  · unfold interpolateDelta jsRem
    have harg : Real.pi / 18 - 35 * Real.pi / 18 + Real.pi * 3 = Real.pi * (10/9) := by
      ring
    rw [harg]
    have hdiv : Real.pi * (10/9) / (Real.pi * 2) = 10/18 := by
      rw [div_eq_iff (by positivity)]
      ring
    rw [hdiv]
    have : jsTrunc ((10:ℝ)/18) = 0 := by
      unfold jsTrunc
      rw [if_pos (by norm_num)]
      norm_num
    rw [this]
    push_cast
    ring

/-- C8 witness: the amended theorem applied at `a = 0`, `b = 0`, `t = 0`. -/
theorem interpolateAngle_shortest_arc_witness :
    ((0:ℝ) ≤ 0 - 0 + Real.pi * 3) ∧
    (∃ k : ℤ, interpolateDelta 0 0 = 0 - 0 + 2 * Real.pi * k) ∧
    |interpolateDelta 0 0| ≤ Real.pi := by
  have h : (0:ℝ) ≤ 0 - 0 + Real.pi * 3 := by
    have := Real.pi_pos; linarith
  have hmain := interpolateAngle_shortest_arc 0 0 0 h
  exact ⟨h, hmain.1, hmain.2.1⟩

/--
C8 counterexample.  At `a = 4π`, `b = 0` (a heading difference below −3π),
the applied delta is `−2π`: it is congruent to `b − a` but its absolute
value exceeds π, so interpolation takes a full extra turn instead of the
shortest arc — at ratio 1/2 the result is 3π (i.e. 180° away) instead of
staying at the common heading.
-/
theorem interpolateAngle_full_turn :
    interpolateDelta (4 * Real.pi) 0 = -(2 * Real.pi) ∧
    ¬ |interpolateDelta (4 * Real.pi) 0| ≤ Real.pi ∧
    interpolateAngle (4 * Real.pi) 0 (1/2) = 3 * Real.pi := by
  have hpi := Real.pi_pos
  have hdelta : interpolateDelta (4 * Real.pi) 0 = -(2 * Real.pi) := by
    unfold interpolateDelta jsRem
    have harg : (0:ℝ) - 4 * Real.pi + Real.pi * 3 = -Real.pi := by ring
    rw [harg]
    have hdiv : -Real.pi / (Real.pi * 2) = -(1/2) := by
      rw [div_eq_iff (by positivity)]
      ring
    rw [hdiv]
    have : jsTrunc (-(1/2) : ℝ) = 0 := by
      unfold jsTrunc
      rw [if_neg (by norm_num)]
      norm_num
    rw [this]
    push_cast
    ring
  refine ⟨hdelta, ?_, ?_⟩
  · rw [hdelta, abs_le]
    push_neg
    intro hcontra
    nlinarith
  · unfold interpolateAngle
    rw [hdelta]
    ring

lemma preLap_fields (g : LapGame) (tk : TickIn) :
    (recordLapSample (checkCheckpoint (moveCar g tk))).car.x = tk.x ∧
    (recordLapSample (checkCheckpoint (moveCar g tk))).car.y = tk.y ∧
    (recordLapSample (checkCheckpoint (moveCar g tk))).car.lap = g.car.lap ∧
    (recordLapSample (checkCheckpoint (moveCar g tk))).car.crossedFinishLine
      = g.car.crossedFinishLine ∧
    (recordLapSample (checkCheckpoint (moveCar g tk))).startPoint = g.startPoint := by
  unfold recordLapSample checkCheckpoint moveCar
  dsimp only
  split_ifs <;> exact ⟨rfl, rfl, rfl, rfl, rfl⟩

lemma checkLapCompletion_locked (g : LapGame) (now : ℝ)
    (hlock : g.car.crossedFinishLine = true) (hdist : lapDistance g ≤ 200) :
    checkLapCompletion g now = g := by
  unfold checkLapCompletion
  dsimp only
  rcases lt_or_le (lapDistance g) 100 with h | h
  · rw [if_pos h, if_neg]
    intro hcontra
    rw [hlock] at hcontra
    exact Bool.true_eq_false ▸ (by simpa using hcontra.1)
  · rw [if_neg (not_lt.mpr h), if_neg (not_lt.mpr hdist)]

/--
C1.  The finish-line state machine of `checkLapCompletion`:
* an approach (distance < 100) with the checkpoint not yet crossed never
  increments the lap counter;
* an approach with the checkpoint crossed but a lap clock of at most 5000 ms
  never increments the lap counter;
* an approach with the checkpoint crossed, the finish flag clear and a lap
  clock above 5000 ms increments the lap counter by exactly one, clears
  `crossedCheckpoint`, resets the lap start time to `now` and sets
  `crossedFinishLine`;
* from a state with `crossedFinishLine` set, no sequence of ticks that stays
  within distance 200 (double the tolerance) of the finish line can change
  the lap counter or clear the flag.
-/
theorem lapTimer_state_machine (g : LapGame) (now : ℝ) :
    (lapDistance g < 100 → g.car.crossedCheckpoint = false →
      (checkLapCompletion g now).car.lap = g.car.lap) ∧
    (lapDistance g < 100 → g.car.crossedCheckpoint = true →
      g.car.currentLapTime ≤ 5000 →
      (checkLapCompletion g now).car.lap = g.car.lap) ∧
    (lapDistance g < 100 → g.car.crossedFinishLine = false →
      g.car.crossedCheckpoint = true → g.car.currentLapTime > 5000 →
      (checkLapCompletion g now).car.lap = g.car.lap + 1 ∧
      (checkLapCompletion g now).car.crossedCheckpoint = false ∧
      (checkLapCompletion g now).car.lapStartTime = now ∧
      (checkLapCompletion g now).car.crossedFinishLine = true) ∧
    (∀ l : List TickIn, g.car.crossedFinishLine = true →
      (∀ tk ∈ l, Real.sqrt ((tk.x - g.startPoint.x) ^ 2
        + (tk.y - g.startPoint.y) ^ 2) ≤ 200) →
      (lapTicks g l).car.lap = g.car.lap ∧
        (lapTicks g l).car.crossedFinishLine = true) := by
  refine ⟨?_, ?_, ?_, ?_⟩
  · intro hd hcp
    unfold checkLapCompletion
    dsimp only
    rw [if_pos hd, if_neg (by rw [hcp]; simp)]
  · intro hd hcp hclt
    unfold checkLapCompletion
    dsimp only
    rw [if_pos hd]
    cases hfl : g.car.crossedFinishLine with
    | true => rw [if_neg (by simp)]
    | false =>
      rw [if_pos ⟨rfl, hcp⟩, if_neg (not_lt.mpr hclt)]
  · intro hd hfl hcp hclt
    unfold checkLapCompletion
    dsimp only
    rw [if_pos hd, if_pos ⟨hfl, hcp⟩, if_pos hclt]
    split_ifs <;> exact ⟨rfl, rfl, rfl, rfl⟩
  · intro l
    induction l generalizing g with
    | nil => intro hlock _; exact ⟨rfl, hlock⟩
    | cons tk l ih =>
      intro hlock hmem
      have hpre := preLap_fields g tk
      set g1 := recordLapSample (checkCheckpoint (moveCar g tk)) with hg1
      have hlock1 : g1.car.crossedFinishLine = true := by
        rw [hpre.2.2.2.1, hlock]
      have hdist1 : lapDistance g1 ≤ 200 := by
        unfold lapDistance
        rw [hpre.1, hpre.2.1, hpre.2.2.2.2]
        exact hmem tk (List.mem_cons_self _ _)
      have hstep : lapTick g tk = g1 := by
        unfold lapTick
        rw [← hg1, checkLapCompletion_locked g1 tk.now hlock1 hdist1]
      have hrun : lapTicks g (tk :: l) = lapTicks (lapTick g tk) l := rfl
      rw [hrun, hstep]
      have hmem1 : ∀ t2 ∈ l, Real.sqrt ((t2.x - g1.startPoint.x) ^ 2
          + (t2.y - g1.startPoint.y) ^ 2) ≤ 200 := by
        intro t2 ht2
        rw [hpre.2.2.2.2]
        exact hmem t2 (List.mem_cons_of_mem _ ht2)
      have := ih g1 hlock1 hmem1
      rw [this.1, hpre.2.2.1]
      exact ⟨rfl, this.2⟩

/-- C1 witness: on `lapW` the lap completion check awards exactly one lap. -/
theorem lapTimer_state_machine_witness :
    (lapDistance lapW < 100 ∧ lapW.car.crossedFinishLine = false ∧
      lapW.car.crossedCheckpoint = true ∧ lapW.car.currentLapTime > 5000) ∧
    (checkLapCompletion lapW 777).car.lap = lapW.car.lap + 1 := by
  have hd : lapDistance lapW < 100 := by
    unfold lapDistance lapW
    norm_num [mkCar, Real.sqrt_zero]
  exact ⟨⟨hd, rfl, rfl, by norm_num [lapW, mkCar]⟩,
    ((lapTimer_state_machine lapW 777).2.2.1 hd rfl rfl (by norm_num [lapW, mkCar])).1⟩

/--
C9 (amended).  `recordLapSample` itself keeps consecutive samples at least
30 ms apart: if the buffer satisfies the spacing invariant and every stored
timestamp is at most `lastSampleTime`, both facts still hold after a call.
(The final sample pushed directly by `checkLapCompletion` bypasses this
check — see the counterexample.)
-/
theorem recordLapSample_min_interval (g : LapGame)
    (hchain : List.Chain' sampleGap g.lapSamples)
    (hlast : ∀ s ∈ g.lapSamples, s.t ≤ g.lastSampleTime) :
    List.Chain' sampleGap (recordLapSample g).lapSamples ∧
    ∀ s ∈ (recordLapSample g).lapSamples, s.t ≤ (recordLapSample g).lastSampleTime := by
  unfold recordLapSample
  dsimp only
  split_ifs with h
  · exact ⟨hchain, hlast⟩
  · push_neg at h
    constructor
    · rw [List.chain'_append]
      refine ⟨hchain, List.chain'_singleton _, ?_⟩
      intro x hx y hy
      obtain ⟨hne, hxeq⟩ := List.mem_getLast?_eq_getLast hx
      have hxmem : x ∈ g.lapSamples := hxeq ▸ List.getLast_mem hne
      have hxle : x.t ≤ g.lastSampleTime := hlast x hxmem
      have hyeq : y = ⟨g.car.currentLapTime, g.car.x, g.car.y, g.car.angle⟩ := by
        have := hy
        simp at this
        exact this.symm
      rw [hyeq]
      show 30 ≤ g.car.currentLapTime - x.t
      linarith
    · intro s hs
      rcases List.mem_append.mp hs with h1 | h2
      · exact le_trans (hlast s h1) (by linarith)
      · rw [List.mem_singleton.mp h2]

/-- C9 witness: the amended theorem applied to `lapG0` (its one-sample
buffer trivially satisfies the invariant). -/
theorem recordLapSample_min_interval_witness :
    (List.Chain' sampleGap lapG0.lapSamples ∧
      ∀ s ∈ lapG0.lapSamples, s.t ≤ lapG0.lastSampleTime) ∧
    List.Chain' sampleGap (recordLapSample lapG0).lapSamples := by
  have hchain : List.Chain' sampleGap lapG0.lapSamples := List.chain'_singleton _
  have hlast : ∀ s ∈ lapG0.lapSamples, s.t ≤ lapG0.lastSampleTime := by
    intro s hs
    rw [List.mem_singleton.mp hs]
    norm_num [lapG0]
  exact ⟨⟨hchain, hlast⟩, (recordLapSample_min_interval lapG0 hchain hlast).1⟩

/--
C9 counterexample.  From `lapG0`, one tick at lap clock 5010 ms first lets
`recordLapSample` append a sample at 5010 (exactly 30 ms after the previous
one), and then `checkLapCompletion` pushes its final sample — also at
5010 ms, with no interval check — and persists the buffer as the best lap:
the stored lap contains two consecutive samples 0 ms apart, violating the
claimed 30 ms minimum for "any two consecutively appended samples,
including the final sample appended at lap completion".
-/
theorem lapCompletion_sample_gap_violation :
    (checkLapCompletion (recordLapSample lapG0) 9999).bestLap
      = some (5010, [⟨4980, 0, 0, 0⟩, ⟨5010, 0, 0, 0⟩, ⟨5010, 0, 0, 0⟩]) ∧
    ¬ List.Chain' sampleGap
        [(⟨4980, 0, 0, 0⟩ : Sample), ⟨5010, 0, 0, 0⟩, ⟨5010, 0, 0, 0⟩] := by
  constructor
  · simp only [checkLapCompletion, lapDistance, recordLapSample, lapG0, mkCar]
    norm_num [Real.sqrt_zero]
  · intro h
    have h2 := (List.chain'_cons.mp (List.chain'_cons.mp h).2).1
    unfold sampleGap at h2
    norm_num at h2

end MicroRacer
